import Mathlib

/-!
# Verification of the VideoCapture segmented ring-buffer recorder

Shallow embedding of the core components of the VideoCapture repository:

* `SegmentManager.kt` — the Segment Store (disk-backed ring buffer of
  fixed-duration MP4 segments with eviction);
* `CircularBufferRecorder.kt` (and its refactored twin using
  `LifecycleCameraController`) — the Session Controller state machine;
* `VideoMuxer` — the Concatenator that merges segment files into one MP4
  via `MediaMuxer` without re-encoding.

Modelling conventions:
* The filesystem is a map `Nat → Option Nat` from a segment's file id to the
  length of its backing file (`none` = the file does not exist).  A segment's
  deterministic file name `segment_<index>.mp4` is identified with its index.
* `System.currentTimeMillis()` values are passed in as explicit parameters.
* Kotlin `Long`/`Int` arithmetic on durations, counts and timestamps never
  approaches 2^31/2^63 in any of the statements below, so it is modelled
  with `Nat` (all quantities involved are non-negative in the source).
* External collaborators (CameraX, `MediaStore`, telemetry, logging) are not
  modelled; callback invocations (`onError`, `onStateChanged`, ...) are
  modelled as an explicit list of emitted events.
-/

namespace VideoCapture

/-! ## Segment Store (`SegmentManager.kt`) -/

/-- `SegmentManager.SegmentInfo`: one tracked on-disk segment.
`file` is the file id (the name `segment_<index>.mp4` is determined by the
index, so the id equals the index at creation). -/
structure SegmentInfo where
  file : Nat
  startTimeMs : Nat
  durationMs : Nat
  index : Nat
  deriving DecidableEq, Repr

/-- State of a `SegmentManager`: the deque of tracked segments (in creation
order), the configured buffer duration, the monotone counter, and the
scratch-area filesystem (file id ↦ file length, `none` = absent). -/
structure SMState where
  segments : List SegmentInfo
  bufferDurationMs : Nat
  segmentCounter : Nat
  fs : Nat → Option Nat

/-- `SEGMENT_DURATION_MS = 500L` in `SegmentManager.kt`. -/
def SEGMENT_DURATION_MS : Nat := 500

/-- `file.delete()`: removes the file; deleting an absent file is a no-op. -/
def deleteFile (fs : Nat → Option Nat) (i : Nat) : Nat → Option Nat :=
  fun j => if j = i then none else fs j

/-- `SegmentManager.setBufferDuration(durationSeconds)`. -/
def setBufferDuration (sm : SMState) (durationSeconds : Nat) : SMState :=
  { sm with bufferDurationMs := durationSeconds * 1000 }

/-- The `while (segments.size > maxSegments) { pollFirst; delete }` loop of
`SegmentManager.trimBuffer`. -/
def trimLoop (m : Nat) : (Nat → Option Nat) → List SegmentInfo →
    (Nat → Option Nat) × List SegmentInfo
  | fs, [] => (fs, [])
  | fs, s :: rest =>
    if rest.length + 1 > m then trimLoop m (deleteFile fs s.file) rest
    else (fs, s :: rest)

/-- `SegmentManager.trimBuffer()`:
`maxSegments = (bufferDurationMs / SEGMENT_DURATION_MS).toInt() + 2` (Kotlin
integer division, i.e. floor), then evict oldest while over capacity. -/
def trimBuffer (sm : SMState) : SMState :=
  let maxSegments := sm.bufferDurationMs / SEGMENT_DURATION_MS + 2
  let r := trimLoop maxSegments sm.fs sm.segments
  { sm with fs := r.1, segments := r.2 }

/-- `SegmentManager.createNewSegment()`: allocate the next index and file,
append to the deque, then trim.  The wall-clock timestamp is an explicit
parameter.  Returns the new state and the created segment. -/
def createNewSegment (sm : SMState) (timestamp : Nat) : SMState × SegmentInfo :=
  let info : SegmentInfo :=
    { file := sm.segmentCounter
      startTimeMs := timestamp
      durationMs := SEGMENT_DURATION_MS
      index := sm.segmentCounter }
  let sm1 := { sm with
    segments := sm.segments ++ [info]
    segmentCounter := sm.segmentCounter + 1 }
  (trimBuffer sm1, info)

/-- The filter used by every read path: `it.file.exists() && it.file.length() > 0`. -/
def segLive (fs : Nat → Option Nat) (g : SegmentInfo) : Bool :=
  match fs g.file with
  | some n => decide (0 < n)
  | none => false

/-- `SegmentManager.getAllSegments()`: `segments.mapNotNull { if (exists && length > 0) it.file else null }`. -/
def getAllSegments (sm : SMState) : List Nat :=
  sm.segments.filterMap (fun g => if segLive sm.fs g then some g.file else none)

/-- `SegmentManager.freezeBuffer()`: returns `getAllSegments()`. -/
def freezeBuffer (sm : SMState) : List Nat :=
  getAllSegments sm

/-- `SegmentManager.clearBuffer()`: delete every tracked file, drop all
records, reset the counter. -/
def clearBuffer (sm : SMState) : SMState :=
  { sm with
    fs := sm.segments.foldl (fun fs g => deleteFile fs g.file) sm.fs
    segments := []
    segmentCounter := 0 }

/-- A sequence of `createNewSegment` insertions (timestamps given as a list). -/
def insertMany (sm : SMState) (stamps : List Nat) : SMState :=
  stamps.foldl (fun s t => (createNewSegment s t).1) sm

/-- Ceiling division, for the spec's `ceil(windowDuration/segmentDuration)`. -/
def ceilDiv (a b : Nat) : Nat := (a + b - 1) / b

/-! ### Lemmas about the Segment Store -/

theorem trimLoop_length_le (m : Nat) (fs : Nat → Option Nat)
    (segs : List SegmentInfo) : (trimLoop m fs segs).2.length ≤ m := by
  induction segs generalizing fs with
  | nil => simp [trimLoop]
  | cons s rest ih =>
    by_cases h : rest.length + 1 > m
    · simpa [trimLoop, h] using ih (deleteFile fs s.file)
    · simp [trimLoop, h]
      omega

theorem trimBuffer_bufferDurationMs (sm : SMState) :
    (trimBuffer sm).bufferDurationMs = sm.bufferDurationMs := rfl

theorem createNewSegment_bufferDurationMs (sm : SMState) (t : Nat) :
    ((createNewSegment sm t).1).bufferDurationMs = sm.bufferDurationMs := rfl

theorem insertMany_bufferDurationMs (sm : SMState) (stamps : List Nat) :
    (insertMany sm stamps).bufferDurationMs = sm.bufferDurationMs := by
  induction stamps generalizing sm with
  | nil => rfl
  | cons t ts ih =>
    simpa [insertMany] using ih (createNewSegment sm t).1

theorem createNewSegment_length_le (sm : SMState) (t : Nat) :
    ((createNewSegment sm t).1).segments.length ≤
      sm.bufferDurationMs / SEGMENT_DURATION_MS + 2 := by
  simpa [createNewSegment, trimBuffer] using
    trimLoop_length_le (sm.bufferDurationMs / SEGMENT_DURATION_MS + 2)
      sm.fs (sm.segments ++
        [{ file := sm.segmentCounter, startTimeMs := t,
           durationMs := SEGMENT_DURATION_MS, index := sm.segmentCounter }])

/-- C1: After any non-empty sequence of `createNewSegment` insertions, the
number of segments tracked by the Segment Store is at most
`ceil(windowDuration/segmentDuration) + 2` — `trimBuffer` runs after every
insertion and evicts oldest segments while the count exceeds the derived
`maxSegments` (which the code computes with floor division, hence is at most
the spec's ceiling-based bound). -/
theorem c1_store_size_bounded (sm : SMState) (stamps : List Nat)
    (h : stamps ≠ []) :
    (insertMany sm stamps).segments.length ≤
      ceilDiv sm.bufferDurationMs SEGMENT_DURATION_MS + 2 := by
  induction stamps generalizing sm with
  | nil => exact absurd rfl h
  | cons t ts ih =>
    rcases ts with _ | ⟨t2, ts2⟩
    · have hfloor := createNewSegment_length_le sm t
      have hle : sm.bufferDurationMs / SEGMENT_DURATION_MS ≤
          ceilDiv sm.bufferDurationMs SEGMENT_DURATION_MS := by
        unfold ceilDiv SEGMENT_DURATION_MS
        exact Nat.div_le_div_right (by omega)
      simpa [insertMany] using le_trans hfloor (by omega)
    · have hrec := ih (createNewSegment sm t).1 (by simp)
      rw [createNewSegment_bufferDurationMs] at hrec
      simpa [insertMany] using hrec

/-- Witness for C1 at a concrete input: a fresh 5-second store receives
three insertions and ends with 3 ≤ ceil(5000/500) + 2 = 12 segments. -/
theorem c1_store_size_bounded_witness :
    (insertMany ⟨[], 5000, 0, fun _ => none⟩ [10, 20, 30]).segments.length ≤
      ceilDiv 5000 SEGMENT_DURATION_MS + 2 :=
  c1_store_size_bounded ⟨[], 5000, 0, fun _ => none⟩ [10, 20, 30] (by simp)

theorem getAllSegments_eq_filter (sm : SMState) :
    getAllSegments sm =
      (sm.segments.filter (fun g => segLive sm.fs g)).map SegmentInfo.file := by
  unfold getAllSegments
  induction sm.segments with
  | nil => rfl
  | cons g rest ih =>
    by_cases hg : segLive sm.fs g <;> simp [hg, List.filter_cons, ih]

theorem index_inj_of_pairwise {l : List SegmentInfo}
    (h : l.Pairwise (fun a b => a.index < b.index)) :
    ∀ g ∈ l, ∀ g' ∈ l, g.index = g'.index → g = g' := by
  induction l with
  | nil => simp
  | cons a rest ih =>
    rcases List.pairwise_cons.mp h with ⟨ha, hrest⟩
    intro g hg g' hg' heq
    rcases List.mem_cons.mp hg with rfl | hg2 <;>
      rcases List.mem_cons.mp hg' with rfl | hg2'
    · rfl
    · exact absurd heq (by have := ha g' hg2'; omega)
    · exact absurd heq (by have := ha g hg2; omega)
    · exact ih hrest g hg2 g' hg2' heq

/-- C3: `freezeBuffer()` (= `getAllSegments()`) returns exactly the tracked
segments whose backing file exists with non-zero length, in creation order;
on any state whose segments carry strictly increasing creation indices (an
invariant of every reachable store, since `segmentCounter` only grows
between clears), the returned files are strictly increasing, and a segment
with a missing or zero-length file never appears in the result. -/
theorem c3_freeze_returns_live_ordered (sm : SMState)
    (hidx : sm.segments.Pairwise (fun a b => a.index < b.index))
    (hfile : ∀ g ∈ sm.segments, g.file = g.index) :
    freezeBuffer sm =
      (sm.segments.filter (fun g => segLive sm.fs g)).map SegmentInfo.file ∧
    (freezeBuffer sm).Pairwise (· < ·) ∧
    ∀ g ∈ sm.segments, segLive sm.fs g = false →
      g.file ∉ freezeBuffer sm := by
  have heq := getAllSegments_eq_filter sm
  refine ⟨heq, ?_, ?_⟩
  · show (getAllSegments sm).Pairwise (· < ·)
    rw [heq, List.pairwise_map]
    have hfilter : (sm.segments.filter (fun g => segLive sm.fs g)).Pairwise
        (fun a b => a.index < b.index) := hidx.filter _
    refine hfilter.imp_of_mem ?_
    intro a b ha hb hab
    rw [hfile a (List.mem_of_mem_filter ha), hfile b (List.mem_of_mem_filter hb)]
    exact hab
  · intro g hg hbad hmem
    show False
    rw [show freezeBuffer sm = getAllSegments sm from rfl, heq] at hmem
    rcases List.mem_map.mp hmem with ⟨g', hg', hfe⟩
    have hm' := List.mem_filter.mp hg'
    have : g' = g := by
      refine index_inj_of_pairwise hidx g' hm'.1 g hg ?_
      rw [← hfile g' hm'.1, ← hfile g hg, hfe]
    rw [this] at hm'
    rw [hbad] at hm'
    exact absurd hm'.2 (by simp)

/-- Witness for C3 at a concrete input: three tracked segments; file 0 is
live (7 bytes), file 1 was deleted, file 2 exists but is empty.  `freeze`
returns `[0]`. -/
theorem c3_freeze_returns_live_ordered_witness :
    freezeBuffer ⟨[⟨0, 10, 500, 0⟩, ⟨1, 20, 500, 1⟩, ⟨2, 30, 500, 2⟩], 5000, 3,
        fun j => if j = 0 then some 7 else if j = 2 then some 0 else none⟩ =
      (([⟨0, 10, 500, 0⟩, ⟨1, 20, 500, 1⟩, ⟨2, 30, 500, 2⟩] :
          List SegmentInfo).filter (fun g => segLive
            (fun j => if j = 0 then some 7 else if j = 2 then some 0 else none) g)).map
        SegmentInfo.file ∧
    (freezeBuffer ⟨[⟨0, 10, 500, 0⟩, ⟨1, 20, 500, 1⟩, ⟨2, 30, 500, 2⟩], 5000, 3,
        fun j => if j = 0 then some 7 else if j = 2 then some 0 else none⟩).Pairwise (· < ·) ∧
    ∀ g ∈ ([⟨0, 10, 500, 0⟩, ⟨1, 20, 500, 1⟩, ⟨2, 30, 500, 2⟩] : List SegmentInfo),
      segLive (fun j => if j = 0 then some 7 else if j = 2 then some 0 else none) g = false →
      g.file ∉ freezeBuffer ⟨[⟨0, 10, 500, 0⟩, ⟨1, 20, 500, 1⟩, ⟨2, 30, 500, 2⟩], 5000, 3,
        fun j => if j = 0 then some 7 else if j = 2 then some 0 else none⟩ :=
  c3_freeze_returns_live_ordered _ (by simp) (by intro g hg; fin_cases hg <;> rfl)

/-! ## Session Controller (`CircularBufferRecorder.kt`)

The two recorder implementations (`CircularBufferRecorder.kt` bound with
`VideoCapture<Recorder>`, and the refactored one bound with
`LifecycleCameraController`) share the state machine, trigger, finalize and
stop logic verbatim; they differ only in the CameraX binding (external) and
the nominal chunk duration constant (500 ms vs 2000 ms).  The embedding
follows `CircularBufferRecorder.kt` with `SEGMENT_DURATION_MS = 500`. -/

/-- `CircularBufferRecorder.State`. -/
inductive RState where
  | idle
  | buffering
  | capturingPost
  | finalizing
  deriving DecidableEq, Repr

/-- Observable callback invocations (`onError`, `onStateChanged`, ...). -/
inductive Event where
  | errorEv (code : String) (msg : String)
  | stateChanged (s : RState)
  | bufferReady
  | captureStarted
  | captureCompleted (path : String)
  deriving DecidableEq, Repr

/-- Session Controller state.  CameraX handles, executors, telemetry and the
username used for artifact naming are external collaborators and carry no
state-machine content; they are omitted. -/
structure Recorder where
  state : RState
  triggerActive : Bool
  preBufferSeconds : Nat
  postBufferSeconds : Nat
  preSegments : List Nat
  postSegments : List Nat
  sm : SMState

/-- `CircularBufferRecorder.setClipDuration(totalSeconds)`:
`preBufferSeconds = totalSeconds / 2` (Kotlin integer division),
`postBufferSeconds = totalSeconds - preBufferSeconds`, and the pre-window is
propagated to the Segment Store via `segmentManager.setBufferDuration`. -/
def setClipDuration (r : Recorder) (totalSeconds : Nat) : Recorder :=
  let pre := totalSeconds / 2
  let post := totalSeconds - pre
  { r with
    preBufferSeconds := pre
    postBufferSeconds := post
    sm := setBufferDuration r.sm pre }

/-- `CircularBufferRecorder.triggerCapture()`: guard on `state != BUFFERING`
(report `INVALID_STATE` and return), otherwise freeze the buffer into
`preSegments`, clear `postSegments`, and move to `CAPTURING_POST`. -/
def triggerCapture (r : Recorder) : Recorder × List Event :=
  if r.state ≠ RState.buffering then
    (r, [Event.errorEv "INVALID_STATE" "Camera not in buffering state"])
  else
    ({ r with
        triggerActive := true
        preSegments := freezeBuffer r.sm
        postSegments := []
        state := RState.capturingPost },
      [Event.stateChanged RState.capturingPost, Event.captureStarted])

/-- `CircularBufferRecorder.resetToIdle()`: clear `preSegments` and
`postSegments`, clear the Segment Store, return to `IDLE` (emitting
`onStateChanged(IDLE)` at the call sites below, as the source does). -/
def resetToIdle (r : Recorder) : Recorder :=
  { r with
    preSegments := []
    postSegments := []
    triggerActive := false
    sm := clearBuffer r.sm
    state := RState.idle }

/-- Outcome of the `videoMuxer.concatenateSegments` call inside
`finalizeCapture` as the controller observes it: a non-null output path, a
null result (`MUXER_FAILED`), or a thrown exception (`FINALIZE_FAILED`). -/
inductive MuxAttempt where
  | ok (path : String)
  | failed
  | exn (msg : String)
  deriving DecidableEq, Repr

/-- `CircularBufferRecorder.finalizeCapture()`: enter `FINALIZING`; an empty
`preSegments + postSegments` reports `NO_SEGMENTS`; otherwise the muxer
outcome decides between `onCaptureCompleted` and an error; every branch ends
in `resetToIdle()`. -/
def finalizeCapture (r : Recorder) (outcome : MuxAttempt) : Recorder × List Event :=
  let r0 := { r with state := RState.finalizing }
  let evs0 := [Event.stateChanged RState.finalizing]
  if (r.preSegments ++ r.postSegments).isEmpty then
    (resetToIdle r0,
      evs0 ++ [Event.errorEv "NO_SEGMENTS" "No video segments to save",
               Event.stateChanged RState.idle])
  else
    match outcome with
    | MuxAttempt.ok path =>
      (resetToIdle r0,
        evs0 ++ [Event.captureCompleted path, Event.stateChanged RState.idle])
    | MuxAttempt.failed =>
      (resetToIdle r0,
        evs0 ++ [Event.errorEv "MUXER_FAILED" "Failed to create final video",
                 Event.stateChanged RState.idle])
    | MuxAttempt.exn msg =>
      (resetToIdle r0,
        evs0 ++ [Event.errorEv "FINALIZE_FAILED" msg,
                 Event.stateChanged RState.idle])

/-- `CircularBufferRecorder.stopCamera()`: cancel the loop job and any
in-flight recording (external), clear the Segment Store, set `IDLE`.  It
invokes no callbacks and throws nothing (every step is null-safe /
idempotent), so the emitted event list is empty. -/
def stopCamera (r : Recorder) : Recorder × List Event :=
  ({ r with sm := clearBuffer r.sm, state := RState.idle }, [])

/-- The result of `recordSegment(segmentFile)` as it affects the scratch
filesystem: `some n` — the backend finalized a file of `n` bytes at the
segment's path (`n = 0` for a failed/empty recording); `none` — no file was
produced at all. -/
def recordToFile (sm : SMState) (file : Nat) (result : Option Nat) : SMState :=
  { sm with fs := fun j => if j = file then result else sm.fs j }

/-- One iteration of the `while` body of
`CircularBufferRecorder.startSegmentLoop()`.  Returns the new controller
state and whether the loop exited (guard false or `break`).  The
`recResult` parameter is the backend's recording outcome for the created
segment file — the source appends the segment to `postSegments` without
consulting it. -/
def loopIter (r : Recorder) (timestamp : Nat) (recResult : Option Nat) :
    Recorder × Bool :=
  if r.state = RState.buffering ∨ r.state = RState.capturingPost then
    let created := createNewSegment r.sm timestamp
    let sm2 := recordToFile created.1 created.2.file recResult
    let r1 := { r with sm := sm2 }
    if r.state = RState.capturingPost then
      let post := r.postSegments ++ [created.2.file]
      let r2 := { r1 with postSegments := post }
      if post.length * SEGMENT_DURATION_MS ≥ r.postBufferSeconds * 1000 then
        (r2, true)
      else
        (r2, false)
    else
      (r1, false)
  else
    (r, true)

/-! ### Claims about the Session Controller -/

/-- C4: `triggerCapture()` in any state other than `BUFFERING` reports
`INVALID_STATE` and returns the controller state entirely unchanged (in
particular `state`, `preSegments` and `postSegments`). -/
theorem c4_trigger_invalid_state (r : Recorder)
    (h : r.state ≠ RState.buffering) :
    triggerCapture r =
      (r, [Event.errorEv "INVALID_STATE" "Camera not in buffering state"]) := by
  simp [triggerCapture, h]

/-- Witness for C4 at a concrete input: triggering while `IDLE`. -/
theorem c4_trigger_invalid_state_witness :
    triggerCapture ⟨RState.idle, false, 5, 5, [], [], ⟨[], 5000, 0, fun _ => none⟩⟩ =
      (⟨RState.idle, false, 5, 5, [], [], ⟨[], 5000, 0, fun _ => none⟩⟩,
        [Event.errorEv "INVALID_STATE" "Camera not in buffering state"]) :=
  c4_trigger_invalid_state _ (by simp)

/-- C5: for `T ≥ 2`, `setClipDuration(T)` sets `preWindow = T / 2` (floor),
`postWindow = T - preWindow`, their sum is `T`, and the pre-window is
propagated to the Segment Store's window duration (in milliseconds). -/
theorem c5_clip_duration_split (r : Recorder) (T : Nat) (h : 2 ≤ T) :
    (setClipDuration r T).preBufferSeconds = T / 2 ∧
    (setClipDuration r T).postBufferSeconds = T - T / 2 ∧
    (setClipDuration r T).preBufferSeconds +
      (setClipDuration r T).postBufferSeconds = T ∧
    (setClipDuration r T).sm.bufferDurationMs = (T / 2) * 1000 := by
  refine ⟨rfl, rfl, ?_, rfl⟩
  simp only [setClipDuration]
  omega

/-- Witness for C5 at `T = 11`: pre = 5, post = 6, 5 + 6 = 11, store window
5000 ms. -/
theorem c5_clip_duration_split_witness :
    (setClipDuration ⟨RState.idle, false, 5, 5, [], [], ⟨[], 5000, 0, fun _ => none⟩⟩ 11).preBufferSeconds = 11 / 2 ∧
    (setClipDuration ⟨RState.idle, false, 5, 5, [], [], ⟨[], 5000, 0, fun _ => none⟩⟩ 11).postBufferSeconds = 11 - 11 / 2 ∧
    (setClipDuration ⟨RState.idle, false, 5, 5, [], [], ⟨[], 5000, 0, fun _ => none⟩⟩ 11).preBufferSeconds +
      (setClipDuration ⟨RState.idle, false, 5, 5, [], [], ⟨[], 5000, 0, fun _ => none⟩⟩ 11).postBufferSeconds = 11 ∧
    (setClipDuration ⟨RState.idle, false, 5, 5, [], [], ⟨[], 5000, 0, fun _ => none⟩⟩ 11).sm.bufferDurationMs = (11 / 2) * 1000 :=
  c5_clip_duration_split _ 11 (by omega)

/-- C8: `finalizeCapture` with an empty combined segment list reports
`NO_SEGMENTS`, and every outcome (empty list, muxer failure, exception —
and also success) ends with `resetToIdle`: state `IDLE`, `preSegments`,
`postSegments` and the Segment Store all cleared; the session is never left
in `FINALIZING`. -/
theorem c8_finalize_failure_resets (r : Recorder) (outcome : MuxAttempt) :
    (finalizeCapture r outcome).1.state = RState.idle ∧
    (finalizeCapture r outcome).1.preSegments = [] ∧
    (finalizeCapture r outcome).1.postSegments = [] ∧
    (finalizeCapture r outcome).1.sm.segments = [] ∧
    (r.preSegments ++ r.postSegments = [] →
      Event.errorEv "NO_SEGMENTS" "No video segments to save" ∈
        (finalizeCapture r outcome).2) := by
  by_cases h : (r.preSegments ++ r.postSegments).isEmpty
  · refine ⟨?_, ?_, ?_, ?_, ?_⟩ <;>
      simp [finalizeCapture, h, resetToIdle, clearBuffer]
  · have h' : ¬ r.preSegments ++ r.postSegments = [] := by
      simpa [List.isEmpty_iff] using h
    cases outcome <;>
      refine ⟨?_, ?_, ?_, ?_, fun hc => absurd hc h'⟩ <;>
        simp [finalizeCapture, h, resetToIdle, clearBuffer]

/-- Witness for C8 at a concrete input: finalizing with no segments at all
(the inner implication is discharged at `rfl`). -/
theorem c8_finalize_failure_resets_witness :
    (finalizeCapture ⟨RState.capturingPost, true, 5, 5, [], [], ⟨[], 5000, 0, fun _ => none⟩⟩ MuxAttempt.failed).1.state = RState.idle ∧
    Event.errorEv "NO_SEGMENTS" "No video segments to save" ∈
      (finalizeCapture ⟨RState.capturingPost, true, 5, 5, [], [], ⟨[], 5000, 0, fun _ => none⟩⟩ MuxAttempt.failed).2 :=
  ⟨(c8_finalize_failure_resets ⟨RState.capturingPost, true, 5, 5, [], [], ⟨[], 5000, 0, fun _ => none⟩⟩ MuxAttempt.failed).1,
   (c8_finalize_failure_resets ⟨RState.capturingPost, true, 5, 5, [], [], ⟨[], 5000, 0, fun _ => none⟩⟩ MuxAttempt.failed).2.2.2.2 rfl⟩

/-- C9: `stopCamera()` is valid from every state and idempotent: it never
reports an error (the event list is empty), and after each of two
consecutive calls the state is `IDLE` and the Segment Store holds no
segments. -/
theorem c9_stop_idempotent (r : Recorder) :
    (stopCamera r).1.state = RState.idle ∧
    (stopCamera r).1.sm.segments = [] ∧
    (stopCamera r).2 = [] ∧
    (stopCamera (stopCamera r).1).1.state = RState.idle ∧
    (stopCamera (stopCamera r).1).1.sm.segments = [] ∧
    (stopCamera (stopCamera r).1).2 = [] := by
  refine ⟨rfl, ?_, rfl, rfl, ?_, rfl⟩ <;> simp [stopCamera, clearBuffer]

/-- C10: in `CAPTURING_POST`, every loop iteration appends the segment it
created to `postSegments` regardless of the recording outcome, and the loop
exits exactly when the segment count times the nominal segment duration
reaches the post-window — both the appended list and the exit decision are
independent of the recording result. -/
theorem c10_post_loop_counts_segments (r : Recorder) (t : Nat)
    (res res2 : Option Nat) (h : r.state = RState.capturingPost) :
    (loopIter r t res).1.postSegments =
      r.postSegments ++ [r.sm.segmentCounter] ∧
    ((loopIter r t res).2 = true ↔
      r.postBufferSeconds * 1000 ≤
        (r.postSegments.length + 1) * SEGMENT_DURATION_MS) ∧
    (loopIter r t res).2 = (loopIter r t res2).2 ∧
    (loopIter r t res).1.postSegments = (loopIter r t res2).1.postSegments := by
  by_cases hc : r.postBufferSeconds * 1000 ≤
      (r.postSegments.length + 1) * SEGMENT_DURATION_MS
  all_goals refine ⟨?_, ?_, ?_, ?_⟩ <;>
    simp [loopIter, h, createNewSegment, hc]

/-- Witness for C10 at a concrete input: one post segment of 500 ms against
a 1-second post-window — appended but not yet enough to exit. -/
theorem c10_post_loop_counts_segments_witness :
    (loopIter ⟨RState.capturingPost, true, 1, 1, [], [], ⟨[], 1000, 7, fun _ => none⟩⟩ 99 (some 0)).1.postSegments = [] ++ [7] ∧
    ((loopIter ⟨RState.capturingPost, true, 1, 1, [], [], ⟨[], 1000, 7, fun _ => none⟩⟩ 99 (some 0)).2 = true ↔
      1 * 1000 ≤ (List.length ([] : List Nat) + 1) * SEGMENT_DURATION_MS) ∧
    (loopIter ⟨RState.capturingPost, true, 1, 1, [], [], ⟨[], 1000, 7, fun _ => none⟩⟩ 99 (some 0)).2 =
      (loopIter ⟨RState.capturingPost, true, 1, 1, [], [], ⟨[], 1000, 7, fun _ => none⟩⟩ 99 none).2 ∧
    (loopIter ⟨RState.capturingPost, true, 1, 1, [], [], ⟨[], 1000, 7, fun _ => none⟩⟩ 99 (some 0)).1.postSegments =
      (loopIter ⟨RState.capturingPost, true, 1, 1, [], [], ⟨[], 1000, 7, fun _ => none⟩⟩ 99 none).1.postSegments :=
  c10_post_loop_counts_segments _ 99 (some 0) none rfl

/-! ## Concatenator (`VideoMuxer`)

`VideoMuxer.concatenateSegments` either byte-copies a single segment or runs
`concatenateWithMuxer` over `MediaExtractor`/`MediaMuxer`.  A segment file is
modelled by its raw bytes together with the extractor's view of it: a list
of tracks, each a MIME kind plus the coded samples in file order.  Sample
presentation times (`MediaExtractor.sampleTime`, microseconds) are
non-negative while samples remain (the `readSampleData < 0` check fires
before the `-1` sentinel is ever read), so they are modelled as `Nat`.
Writing to `MediaStore` (the durable sink) is external and modelled as
succeeding. -/

/-- One coded sample as the muxer sees it: presentation timestamp (µs),
payload size, and flags (e.g. keyframe marker). -/
structure Sample where
  pts : Nat
  size : Nat
  flags : Nat
  deriving DecidableEq, Repr

/-- MIME kind of a track: `video/*`, `audio/*`, or anything else. -/
inductive TrackKind where
  | video
  | audio
  | other
  deriving DecidableEq, Repr

/-- One track of a segment file, in extractor order. -/
structure Track where
  kind : TrackKind
  samples : List Sample
  deriving DecidableEq, Repr

/-- A segment file on disk: whether it exists, its raw bytes, and the
extractor's parse into tracks. -/
structure MediaFile where
  present : Bool
  bytes : List Nat
  tracks : List Track
  deriving DecidableEq, Repr

/-- The skip test in `concatenateWithMuxer`:
`!segment.exists() || segment.length() == 0L` — a segment takes part only
when it is present and non-empty. -/
def segGood (f : MediaFile) : Bool :=
  f.present && decide (f.bytes ≠ [])

/-- The samples of the first track with the given MIME kind (the track
`copyTrack` selects); `[]` when no such track exists (no track selected, so
`readSampleData` immediately returns `-1`). -/
def trackSamples (tracks : List Track) (k : TrackKind) : List Sample :=
  match tracks.find? (fun t => t.kind == k) with
  | some t => t.samples
  | none => []

/-- `VideoMuxer.copyTrack`: rewrite each sample's timestamp as
`sampleTime + ptsOffset`, track the maximum timestamp written (seeded with
`ptsOffset`), and return the written samples together with
`maxPts + 33333` (≈ one nominal frame duration at 30 fps) as the next
offset. -/
def copyTrack (samples : List Sample) (ptsOffset : Nat) : List Sample × Nat :=
  let written := samples.map (fun s => { s with pts := s.pts + ptsOffset })
  let maxPts := written.foldl (fun m s => max m s.pts) ptsOffset
  (written, maxPts + 33333)

/-- Muxer-side state threaded through `concatenateWithMuxer`'s segment
loop: whether video/audio output tracks are registered
(`videoTrackIndex >= 0` / `audioTrackIndex >= 0`), whether the muxer was
started, the running per-track offsets, and the samples written so far per
output track. -/
structure MuxState where
  hasVideoTrack : Bool
  hasAudioTrack : Bool
  started : Bool
  lastVideoPts : Nat
  lastAudioPts : Nat
  outVideo : List Sample
  outAudio : List Sample
  deriving DecidableEq, Repr

def initMuxState : MuxState :=
  { hasVideoTrack := false, hasAudioTrack := false, started := false
    lastVideoPts := 0, lastAudioPts := 0, outVideo := [], outAudio := [] }

/-- Track registration on the first valid segment: register one output
track per MIME kind found, then `muxer.start()`.  Starting with zero
registered tracks throws (caught by the per-segment handler), leaving the
muxer unstarted. -/
def registerTracks (st : MuxState) (f : MediaFile) : MuxState :=
  if st.started then st
  else
    let hv := f.tracks.any (fun t => t.kind == TrackKind.video)
    let ha := f.tracks.any (fun t => t.kind == TrackKind.audio)
    if hv || ha then
      { st with hasVideoTrack := hv, hasAudioTrack := ha, started := true }
    else st

/-- The `if (videoTrackIndex >= 0) { lastVideoPts = copyTrack(...) }` step. -/
def copyVideoStep (st : MuxState) (f : MediaFile) : MuxState :=
  if st.hasVideoTrack then
    let r := copyTrack (trackSamples f.tracks TrackKind.video) st.lastVideoPts
    { st with outVideo := st.outVideo ++ r.1, lastVideoPts := r.2 }
  else st

/-- The `if (audioTrackIndex >= 0) { lastAudioPts = copyTrack(...) }` step. -/
def copyAudioStep (st : MuxState) (f : MediaFile) : MuxState :=
  if st.hasAudioTrack then
    let r := copyTrack (trackSamples f.tracks TrackKind.audio) st.lastAudioPts
    { st with outAudio := st.outAudio ++ r.1, lastAudioPts := r.2 }
  else st

/-- One iteration of `concatenateWithMuxer`'s segment loop: skip missing or
empty segments; set up tracks on the first valid segment; then copy the
video track followed by the audio track. -/
def muxStep (st : MuxState) (f : MediaFile) : MuxState :=
  if segGood f then
    let st1 := registerTracks st f
    if st1.started then copyAudioStep (copyVideoStep st1 f) f else st1
  else st

/-- `VideoMuxer.concatenateWithMuxer(segments, output)`. -/
def concatenateWithMuxer (segs : List MediaFile) : MuxState :=
  segs.foldl muxStep initMuxState

/-- What `concatenateSegments` delivers to the durable sink: a verbatim
byte copy (single-segment fast path) or the muxed container. -/
inductive MuxOutput where
  | copied (bytes : List Nat)
  | muxed (st : MuxState)
  deriving DecidableEq, Repr

/-- `VideoMuxer.concatenateSegments(segments, username)`: `none` for an
empty input (and when the single-segment copy throws because the file is
missing); the single-segment path copies the one file verbatim; otherwise
the muxer path runs. -/
def concatenateSegments (segs : List MediaFile) : Option MuxOutput :=
  match segs with
  | [] => none
  | [f] => if f.present then some (MuxOutput.copied f.bytes) else none
  | _ => some (MuxOutput.muxed (concatenateWithMuxer segs))

/-! ### C6 — single-segment fast path -/

/-- C6: concatenating exactly one (existing) segment copies the file
verbatim — the produced output bytes are byte-identical to the input
segment file, with no parsing or re-muxing. -/
theorem c6_single_segment_verbatim (f : MediaFile) (h : f.present = true) :
    concatenateSegments [f] = some (MuxOutput.copied f.bytes) := by
  simp [concatenateSegments, h]

/-- Witness for C6 at a concrete input. -/
theorem c6_single_segment_verbatim_witness :
    concatenateSegments [⟨true, [7, 8, 9], [⟨TrackKind.video, [⟨0, 4, 1⟩]⟩]⟩] =
      some (MuxOutput.copied [7, 8, 9]) :=
  c6_single_segment_verbatim _ rfl

/-! ### C7 — bad segments are skipped -/

theorem muxStep_skip {f : MediaFile} (st : MuxState)
    (h : segGood f = false) : muxStep st f = st := by
  simp [muxStep, h]

theorem foldl_muxStep_filter (segs : List MediaFile) (st : MuxState) :
    segs.foldl muxStep st = (segs.filter segGood).foldl muxStep st := by
  induction segs generalizing st with
  | nil => rfl
  | cons f rest ih =>
    by_cases hf : segGood f
    · simp [List.filter_cons, hf, ih]
    · simp only [List.foldl_cons, List.filter_cons, Bool.not_eq_true] at *
      rw [muxStep_skip st (by simpa using hf), hf]
      · exact ih st

/-- C7: when some segment is missing or zero-length but at least one other
segment is valid, concatenation succeeds (no error surfaced) and behaves
exactly as if the bad segments were absent: the muxed output equals the
fold over only the valid segments, so only their samples appear. -/
theorem c7_bad_segments_skipped (segs : List MediaFile)
    (hbad : ∃ f ∈ segs, segGood f = false)
    (hgood : ∃ f ∈ segs, segGood f = true) :
    concatenateSegments segs =
      some (MuxOutput.muxed (concatenateWithMuxer (segs.filter segGood))) := by
  match segs, hbad, hgood with
  | [], ⟨f, hf, _⟩, _ => exact absurd hf (by simp)
  | [g], ⟨f, hf, hfb⟩, ⟨f', hf', hfg⟩ =>
    rw [List.mem_singleton.mp hf] at hfb
    rw [List.mem_singleton.mp hf'] at hfg
    rw [hfb] at hfg
    exact absurd hfg (by simp)
  | g1 :: g2 :: rest, _, _ =>
    show some (MuxOutput.muxed (concatenateWithMuxer (g1 :: g2 :: rest))) = _
    rw [concatenateWithMuxer, concatenateWithMuxer,
      foldl_muxStep_filter (g1 :: g2 :: rest) initMuxState]

/-- Witness for C7 at a concrete input: segments {valid, missing, valid} —
the result equals muxing only the two valid ones. -/
theorem c7_bad_segments_skipped_witness :
    concatenateSegments
        [⟨true, [1], [⟨TrackKind.video, [⟨0, 4, 1⟩]⟩]⟩,
         ⟨false, [], []⟩,
         ⟨true, [2], [⟨TrackKind.video, [⟨0, 4, 1⟩]⟩]⟩] =
      some (MuxOutput.muxed (concatenateWithMuxer
        (List.filter segGood
          [⟨true, [1], [⟨TrackKind.video, [⟨0, 4, 1⟩]⟩]⟩,
           ⟨false, [], []⟩,
           ⟨true, [2], [⟨TrackKind.video, [⟨0, 4, 1⟩]⟩]⟩]))) :=
  c7_bad_segments_skipped _
    ⟨⟨false, [], []⟩, by simp, by simp [segGood]⟩
    ⟨⟨true, [1], [⟨TrackKind.video, [⟨0, 4, 1⟩]⟩]⟩, by simp, by simp [segGood]⟩

/-! ### C2 — timestamp continuity across segment boundaries

To speak about "the samples written while processing segment i", the muxer
loop is re-run chunk-wise: `muxVideoChunks`/`muxAudioChunks` list, per input
segment, the samples appended to the corresponding output track during that
segment's iteration.  `shiftChunks` is the same per-track computation on
bare sample lists; the lemmas below show the muxer loop agrees with it and
derive the boundary properties from it. -/

/-- Per input segment, the samples `muxStep` appends to the video output
track. -/
def muxVideoChunks : MuxState → List MediaFile → List (List Sample)
  | _, [] => []
  | st, f :: rest =>
    let st' := muxStep st f
    (st'.outVideo.drop st.outVideo.length) :: muxVideoChunks st' rest

/-- Per input segment, the samples `muxStep` appends to the audio output
track. -/
def muxAudioChunks : MuxState → List MediaFile → List (List Sample)
  | _, [] => []
  | st, f :: rest =>
    let st' := muxStep st f
    (st'.outAudio.drop st.outAudio.length) :: muxAudioChunks st' rest

/-- Chunk-wise form of repeated `copyTrack`: shift each sample list by the
running offset and advance the offset to the maximum written timestamp plus
one nominal frame duration. -/
def shiftChunks : Nat → List (List Sample) → List (List Sample)
  | _, [] => []
  | off, ts :: rest =>
    let r := copyTrack ts off
    r.1 :: shiftChunks r.2 rest

/-- Timestamp of the first sample (in file order), if any. -/
def firstPts (ts : List Sample) : Option Nat :=
  ts.head?.map Sample.pts

/-- Largest timestamp in a chunk (0 for an empty chunk). -/
def maxPtsOf (c : List Sample) : Nat :=
  c.foldl (fun m s => max m s.pts) 0

/-- Smallest timestamp in a chunk (0 for an empty chunk). -/
def minPtsOf : List Sample → Nat
  | [] => 0
  | s :: r => r.foldl (fun m x => min m x.pts) s.pts

theorem shiftChunks_cons (off : Nat) (ts : List Sample)
    (rest : List (List Sample)) :
    shiftChunks off (ts :: rest) =
      (copyTrack ts off).1 :: shiftChunks (copyTrack ts off).2 rest := rfl

theorem le_foldl_maxPts (l : List Sample) (a : Nat) :
    a ≤ l.foldl (fun m s => max m s.pts) a := by
  induction l generalizing a with
  | nil => simp
  | cons s r ih => exact le_trans (le_max_left a s.pts) (ih _)

theorem mem_le_foldl_maxPts {s : Sample} {l : List Sample} (a : Nat)
    (h : s ∈ l) : s.pts ≤ l.foldl (fun m s => max m s.pts) a := by
  induction l generalizing a with
  | nil => cases h
  | cons x r ih =>
    rcases List.mem_cons.mp h with rfl | h2
    · exact le_trans (le_max_right a s.pts) (le_foldl_maxPts r _)
    · exact ih _ h2

theorem foldl_maxPts_le {l : List Sample} {a b : Nat} (ha : a ≤ b)
    (h : ∀ s ∈ l, s.pts ≤ b) :
    l.foldl (fun m s => max m s.pts) a ≤ b := by
  induction l generalizing a with
  | nil => simpa
  | cons x r ih =>
    exact ih (max_le ha (h x (by simp))) (fun s hs => h s (by simp [hs]))

theorem foldl_minPts_le (l : List Sample) (a : Nat) :
    l.foldl (fun m x => min m x.pts) a ≤ a := by
  induction l generalizing a with
  | nil => simp
  | cons x r ih => exact le_trans (ih _) (min_le_left a x.pts)

theorem copyTrack_snd (ts : List Sample) (off : Nat) :
    (copyTrack ts off).2 =
      (copyTrack ts off).1.foldl (fun m s => max m s.pts) off + 33333 := rfl

theorem copyTrack_mem_lower {ts : List Sample} {off : Nat} {s : Sample}
    (h : s ∈ (copyTrack ts off).1) : off ≤ s.pts := by
  rcases List.mem_map.mp h with ⟨x, _, rfl⟩
  exact Nat.le_add_left off x.pts

/-- Every chunk produced from running offset `off` contains only timestamps
at least `off`. -/
theorem shiftChunks_lower (tss : List (List Sample)) (off : Nat) :
    ∀ c ∈ shiftChunks off tss, ∀ s ∈ c, off ≤ s.pts := by
  induction tss generalizing off with
  | nil => simp [shiftChunks]
  | cons ts rest ih =>
    intro c hc s hs
    rw [shiftChunks_cons] at hc
    rcases List.mem_cons.mp hc with rfl | hc2
    · exact copyTrack_mem_lower hs
    · have h2 := ih (copyTrack ts off).2 c hc2 s hs
      rw [copyTrack_snd] at h2
      have h3 := le_foldl_maxPts (copyTrack ts off).1 off
      omega

/-- Strict increase across every segment boundary: any sample written for a
later chunk has a strictly larger timestamp than any sample of any earlier
chunk. -/
theorem shiftChunks_pairwise (tss : List (List Sample)) (off : Nat) :
    (shiftChunks off tss).Pairwise
      (fun c1 c2 => ∀ a ∈ c1, ∀ b ∈ c2, a.pts < b.pts) := by
  induction tss generalizing off with
  | nil => simp [shiftChunks]
  | cons ts rest ih =>
    rw [shiftChunks_cons]
    refine List.pairwise_cons.mpr ⟨?_, ih _⟩
    intro c hc a ha b hb
    have hb2 := shiftChunks_lower rest _ c hc b hb
    have ha2 : a.pts ≤ (copyTrack ts off).1.foldl (fun m s => max m s.pts) off :=
      mem_le_foldl_maxPts off ha
    rw [copyTrack_snd] at hb2
    omega

/-- A chunk whose source list starts at timestamp 0 contains the offset
itself, so its minimum is at most the offset it was shifted by. -/
theorem minPts_copyTrack_le {s2 : Sample} (tl2 : List Sample) (off2 : Nat)
    (hs2 : s2.pts = 0) :
    minPtsOf (copyTrack (s2 :: tl2) off2).1 ≤ off2 := by
  have hrw : minPtsOf (copyTrack (s2 :: tl2) off2).1 =
      (List.map (fun s : Sample => { s with pts := s.pts + off2 }) tl2).foldl
        (fun m x => min m x.pts) (s2.pts + off2) := rfl
  rw [hrw]
  have h0 := foldl_minPts_le
    (List.map (fun s : Sample => { s with pts := s.pts + off2 }) tl2)
    (s2.pts + off2)
  omega

/-- For a chunk whose source starts at timestamp 0, the source-side running
maximum (seeded with the offset) is bounded by the chunk's own maximum:
the seed is one of the written timestamps. -/
theorem copyTrack_runmax_le {s1 : Sample} (tl1 : List Sample) (off : Nat)
    (hs1 : s1.pts = 0) :
    (copyTrack (s1 :: tl1) off).1.foldl (fun m s => max m s.pts) off ≤
      maxPtsOf (copyTrack (s1 :: tl1) off).1 := by
  have hmem : ({ s1 with pts := s1.pts + off } : Sample) ∈
      (copyTrack (s1 :: tl1) off).1 := by
    show _ ∈ ({ s1 with pts := s1.pts + off } : Sample) :: _
    exact List.mem_cons_self _ _
  have hoff : off ≤ maxPtsOf (copyTrack (s1 :: tl1) off).1 := by
    have h1 := mem_le_foldl_maxPts 0 hmem
    have h2 : ({ s1 with pts := s1.pts + off } : Sample).pts = s1.pts + off := rfl
    unfold maxPtsOf
    omega
  exact foldl_maxPts_le hoff (fun s hs => mem_le_foldl_maxPts 0 hs)

/-- When every sample list starts at timestamp 0, the discontinuity between
consecutive chunks — smallest timestamp of the next chunk minus largest of
the previous — is at most one nominal frame duration (33333 µs). -/
theorem shiftChunks_chain_gap (tss : List (List Sample)) (off : Nat)
    (h : ∀ ts ∈ tss, firstPts ts = some 0) :
    (shiftChunks off tss).Chain'
      (fun c1 c2 => minPtsOf c2 ≤ maxPtsOf c1 + 33333) := by
  induction tss generalizing off with
  | nil => simp [shiftChunks]
  | cons ts1 rest ih =>
    rcases rest with _ | ⟨ts2, rest2⟩
    · simp [shiftChunks_cons, shiftChunks]
    · rw [shiftChunks_cons, shiftChunks_cons]
      refine List.chain'_cons.mpr ⟨?_, ?_⟩
      · -- decompose the two heads using the first-timestamp-0 hypotheses
        obtain ⟨s1, tl1, rfl, hs1⟩ : ∃ s1 tl1, ts1 = s1 :: tl1 ∧ s1.pts = 0 := by
          have h1 := h ts1 (by simp)
          cases ts1 with
          | nil => simp [firstPts] at h1
          | cons s tl =>
            exact ⟨s, tl, rfl, by simpa [firstPts] using h1⟩
        obtain ⟨s2, tl2, rfl, hs2⟩ : ∃ s2 tl2, ts2 = s2 :: tl2 ∧ s2.pts = 0 := by
          have h2 := h ts2 (by simp)
          cases ts2 with
          | nil => simp [firstPts] at h2
          | cons s tl =>
            exact ⟨s, tl, rfl, by simpa [firstPts] using h2⟩
        have hhead2 := minPts_copyTrack_le tl2 (copyTrack (s1 :: tl1) off).2 hs2
        have hsplit := copyTrack_snd (s1 :: tl1) off
        have hmax := copyTrack_runmax_le tl1 off hs1
        omega
      · rw [← shiftChunks_cons]
        exact ih _ (fun t ht => h t (List.mem_cons_of_mem _ ht))

theorem muxVideoChunks_cons (st : MuxState) (f : MediaFile)
    (rest : List MediaFile) :
    muxVideoChunks st (f :: rest) =
      ((muxStep st f).outVideo.drop st.outVideo.length) ::
        muxVideoChunks (muxStep st f) rest := rfl

theorem muxAudioChunks_cons (st : MuxState) (f : MediaFile)
    (rest : List MediaFile) :
    muxAudioChunks st (f :: rest) =
      ((muxStep st f).outAudio.drop st.outAudio.length) ::
        muxAudioChunks (muxStep st f) rest := rfl

theorem registerTracks_started (st : MuxState) (f : MediaFile)
    (h : st.started = true) : registerTracks st f = st := by
  simp [registerTracks, h]

theorem copyAudioStep_outVideo (st : MuxState) (f : MediaFile) :
    (copyAudioStep st f).outVideo = st.outVideo := by
  unfold copyAudioStep; split <;> rfl

theorem copyAudioStep_lastVideoPts (st : MuxState) (f : MediaFile) :
    (copyAudioStep st f).lastVideoPts = st.lastVideoPts := by
  unfold copyAudioStep; split <;> rfl

theorem copyAudioStep_started (st : MuxState) (f : MediaFile) :
    (copyAudioStep st f).started = st.started := by
  unfold copyAudioStep; split <;> rfl

theorem copyAudioStep_hasVideoTrack (st : MuxState) (f : MediaFile) :
    (copyAudioStep st f).hasVideoTrack = st.hasVideoTrack := by
  unfold copyAudioStep; split <;> rfl

theorem copyVideoStep_outAudio (st : MuxState) (f : MediaFile) :
    (copyVideoStep st f).outAudio = st.outAudio := by
  unfold copyVideoStep; split <;> rfl

theorem copyVideoStep_lastAudioPts (st : MuxState) (f : MediaFile) :
    (copyVideoStep st f).lastAudioPts = st.lastAudioPts := by
  unfold copyVideoStep; split <;> rfl

theorem copyVideoStep_started (st : MuxState) (f : MediaFile) :
    (copyVideoStep st f).started = st.started := by
  unfold copyVideoStep; split <;> rfl

theorem copyVideoStep_hasAudioTrack (st : MuxState) (f : MediaFile) :
    (copyVideoStep st f).hasAudioTrack = st.hasAudioTrack := by
  unfold copyVideoStep; split <;> rfl

theorem copyVideoStep_hasVideoTrack (st : MuxState) (f : MediaFile) :
    (copyVideoStep st f).hasVideoTrack = st.hasVideoTrack := by
  unfold copyVideoStep; split <;> rfl

theorem copyAudioStep_hasAudioTrack (st : MuxState) (f : MediaFile) :
    (copyAudioStep st f).hasAudioTrack = st.hasAudioTrack := by
  unfold copyAudioStep; split <;> rfl

theorem copyVideoStep_spec (st : MuxState) (f : MediaFile)
    (hv : st.hasVideoTrack = true) :
    copyVideoStep st f =
      { st with
        outVideo := st.outVideo ++
          (copyTrack (trackSamples f.tracks TrackKind.video) st.lastVideoPts).1
        lastVideoPts :=
          (copyTrack (trackSamples f.tracks TrackKind.video) st.lastVideoPts).2 } := by
  simp [copyVideoStep, hv]

theorem copyAudioStep_spec (st : MuxState) (f : MediaFile)
    (ha : st.hasAudioTrack = true) :
    copyAudioStep st f =
      { st with
        outAudio := st.outAudio ++
          (copyTrack (trackSamples f.tracks TrackKind.audio) st.lastAudioPts).1
        lastAudioPts :=
          (copyTrack (trackSamples f.tracks TrackKind.audio) st.lastAudioPts).2 } := by
  simp [copyAudioStep, ha]

theorem muxStep_of_started (st : MuxState) (f : MediaFile)
    (hgf : segGood f = true) (hst : st.started = true) :
    muxStep st f = copyAudioStep (copyVideoStep st f) f := by
  simp [muxStep, hgf, registerTracks_started st f hst,
    copyVideoStep_started, hst]

/-- Once the muxer is started with a video output track, the per-segment
video chunks over valid segments are exactly `shiftChunks` of the segments'
video sample lists, from the current running offset. -/
theorem muxVideoChunks_eq_shift (segs : List MediaFile) :
    ∀ st : MuxState, st.started = true → st.hasVideoTrack = true →
    (∀ f ∈ segs, segGood f = true) →
    muxVideoChunks st segs =
      shiftChunks st.lastVideoPts
        (segs.map (fun f => trackSamples f.tracks TrackKind.video)) := by
  induction segs with
  | nil => intro st _ _ _; rfl
  | cons f rest ih =>
    intro st hst hv hg
    have hgf := hg f (List.mem_cons_self f rest)
    have hstep := muxStep_of_started st f hgf hst
    have hvs := copyVideoStep_spec st f hv
    have hout : (muxStep st f).outVideo = st.outVideo ++
        (copyTrack (trackSamples f.tracks TrackKind.video) st.lastVideoPts).1 := by
      rw [hstep, copyAudioStep_outVideo, hvs]
    have hlast : (muxStep st f).lastVideoPts =
        (copyTrack (trackSamples f.tracks TrackKind.video) st.lastVideoPts).2 := by
      rw [hstep, copyAudioStep_lastVideoPts, hvs]
    have hst' : (muxStep st f).started = true := by
      rw [hstep, copyAudioStep_started, hvs]; exact hst
    have hv' : (muxStep st f).hasVideoTrack = true := by
      rw [hstep, copyAudioStep_hasVideoTrack, hvs]; exact hv
    rw [muxVideoChunks_cons, hout, List.drop_left, List.map_cons, shiftChunks_cons,
      ih (muxStep st f) hst' hv' (fun g hgm => hg g (List.mem_cons_of_mem f hgm)),
      hlast]

/-- Audio counterpart of `muxVideoChunks_eq_shift`. -/
theorem muxAudioChunks_eq_shift (segs : List MediaFile) :
    ∀ st : MuxState, st.started = true → st.hasAudioTrack = true →
    (∀ f ∈ segs, segGood f = true) →
    muxAudioChunks st segs =
      shiftChunks st.lastAudioPts
        (segs.map (fun f => trackSamples f.tracks TrackKind.audio)) := by
  induction segs with
  | nil => intro st _ _ _; rfl
  | cons f rest ih =>
    intro st hst ha hg
    have hgf := hg f (List.mem_cons_self f rest)
    have hstep := muxStep_of_started st f hgf hst
    have hva : (copyVideoStep st f).hasAudioTrack = true := by
      rw [copyVideoStep_hasAudioTrack]; exact ha
    have has := copyAudioStep_spec (copyVideoStep st f) f hva
    have hout : (muxStep st f).outAudio = st.outAudio ++
        (copyTrack (trackSamples f.tracks TrackKind.audio) st.lastAudioPts).1 := by
      rw [hstep, has]
      show (copyVideoStep st f).outAudio ++ _ = _
      rw [copyVideoStep_outAudio, copyVideoStep_lastAudioPts]
    have hlast : (muxStep st f).lastAudioPts =
        (copyTrack (trackSamples f.tracks TrackKind.audio) st.lastAudioPts).2 := by
      rw [hstep, has]
      show (copyTrack (trackSamples f.tracks TrackKind.audio)
        (copyVideoStep st f).lastAudioPts).2 = _
      rw [copyVideoStep_lastAudioPts]
    have hst' : (muxStep st f).started = true := by
      rw [hstep, copyAudioStep_started, copyVideoStep_started]; exact hst
    have ha' : (muxStep st f).hasAudioTrack = true := by
      rw [hstep, copyAudioStep_hasAudioTrack, copyVideoStep_hasAudioTrack]
      exact ha
    rw [muxAudioChunks_cons, hout, List.drop_left, List.map_cons, shiftChunks_cons,
      ih (muxStep st f) hst' ha' (fun g hgm => hg g (List.mem_cons_of_mem f hgm)),
      hlast]

theorem any_kind_of_trackSamples_ne {tracks : List Track} {k : TrackKind}
    (h : trackSamples tracks k ≠ []) :
    tracks.any (fun t => t.kind == k) = true := by
  unfold trackSamples at h
  cases hf : tracks.find? (fun t => t.kind == k) with
  | none => rw [hf] at h; exact absurd rfl h
  | some t =>
    have hp := List.find?_some hf
    exact List.any_eq_true.mpr ⟨t, List.mem_of_find?_eq_some hf, hp⟩

theorem muxStep_eq_of_register (st R : MuxState) (f : MediaFile)
    (hgf : segGood f = true) (hreg : registerTracks st f = R)
    (hR : R.started = true) :
    muxStep st f = copyAudioStep (copyVideoStep R f) f := by
  simp [muxStep, hgf, hreg, hR]

/-- The muxer state right after the first valid segment registered both a
video and an audio output track and started the muxer. -/
def startedBoth : MuxState :=
  { hasVideoTrack := true, hasAudioTrack := true, started := true
    lastVideoPts := 0, lastAudioPts := 0, outVideo := [], outAudio := [] }

/-- From the initial muxer state, over valid segments that all carry both a
video and an audio track, the per-segment video chunks are `shiftChunks`
from offset 0: the first valid segment registers both output tracks and
starts the muxer without touching the offsets. -/
theorem muxVideoChunks_from_init (segs : List MediaFile)
    (hg : ∀ f ∈ segs, segGood f = true ∧
      trackSamples f.tracks TrackKind.video ≠ [] ∧
      trackSamples f.tracks TrackKind.audio ≠ []) :
    muxVideoChunks initMuxState segs =
      shiftChunks 0 (segs.map (fun f => trackSamples f.tracks TrackKind.video)) := by
  cases segs with
  | nil => rfl
  | cons f rest =>
    obtain ⟨hgf, hvf, haf⟩ := hg f (List.mem_cons_self f rest)
    have hv := any_kind_of_trackSamples_ne hvf
    have ha := any_kind_of_trackSamples_ne haf
    have hgall : ∀ g ∈ f :: rest, segGood g = true := fun g hgm => (hg g hgm).1
    have hreg : registerTracks initMuxState f = startedBoth := by
      simp [registerTracks, initMuxState, hv, ha, startedBoth]
    have hmux : muxStep initMuxState f = muxStep startedBoth f :=
      (muxStep_eq_of_register initMuxState startedBoth f hgf hreg rfl).trans
        (muxStep_of_started startedBoth f hgf rfl).symm
    have hchunks : muxVideoChunks initMuxState (f :: rest) =
        muxVideoChunks startedBoth (f :: rest) := by
      rw [muxVideoChunks_cons, muxVideoChunks_cons, hmux]
      rfl
    exact hchunks.trans
      (muxVideoChunks_eq_shift (f :: rest) startedBoth rfl rfl hgall)

/-- Audio counterpart of `muxVideoChunks_from_init`. -/
theorem muxAudioChunks_from_init (segs : List MediaFile)
    (hg : ∀ f ∈ segs, segGood f = true ∧
      trackSamples f.tracks TrackKind.video ≠ [] ∧
      trackSamples f.tracks TrackKind.audio ≠ []) :
    muxAudioChunks initMuxState segs =
      shiftChunks 0 (segs.map (fun f => trackSamples f.tracks TrackKind.audio)) := by
  cases segs with
  | nil => rfl
  | cons f rest =>
    obtain ⟨hgf, hvf, haf⟩ := hg f (List.mem_cons_self f rest)
    have hv := any_kind_of_trackSamples_ne hvf
    have ha := any_kind_of_trackSamples_ne haf
    have hgall : ∀ g ∈ f :: rest, segGood g = true := fun g hgm => (hg g hgm).1
    have hreg : registerTracks initMuxState f = startedBoth := by
      simp [registerTracks, initMuxState, hv, ha, startedBoth]
    have hmux : muxStep initMuxState f = muxStep startedBoth f :=
      (muxStep_eq_of_register initMuxState startedBoth f hgf hreg rfl).trans
        (muxStep_of_started startedBoth f hgf rfl).symm
    have hchunks : muxAudioChunks initMuxState (f :: rest) =
        muxAudioChunks startedBoth (f :: rest) := by
      rw [muxAudioChunks_cons, muxAudioChunks_cons, hmux]
      rfl
    exact hchunks.trans
      (muxAudioChunks_eq_shift (f :: rest) startedBoth rfl rfl hgall)

/-- C2 (amended): for every ordered list of valid segments in which each
segment carries a video and an audio track with at least one sample and a
first sample timestamp of 0, the per-track output timestamps are strictly
increasing across every segment boundary, and the discontinuity at each
boundary (smallest timestamp written for the later segment minus largest
written for the earlier) is at most one nominal frame duration (33333 µs).
Without the first-timestamp-0 assumption the strict increase still holds
but the one-frame bound does not (see the counterexample). -/
theorem c2_boundary_monotone_amended (segs : List MediaFile)
    (hg : ∀ f ∈ segs, segGood f = true ∧
      firstPts (trackSamples f.tracks TrackKind.video) = some 0 ∧
      firstPts (trackSamples f.tracks TrackKind.audio) = some 0) :
    ((muxVideoChunks initMuxState segs).Pairwise
        (fun c1 c2 => ∀ a ∈ c1, ∀ b ∈ c2, a.pts < b.pts) ∧
      (muxVideoChunks initMuxState segs).Chain'
        (fun c1 c2 => minPtsOf c2 ≤ maxPtsOf c1 + 33333)) ∧
    ((muxAudioChunks initMuxState segs).Pairwise
        (fun c1 c2 => ∀ a ∈ c1, ∀ b ∈ c2, a.pts < b.pts) ∧
      (muxAudioChunks initMuxState segs).Chain'
        (fun c1 c2 => minPtsOf c2 ≤ maxPtsOf c1 + 33333)) := by
  have hne : ∀ ts : List Sample, firstPts ts = some 0 → ts ≠ [] := by
    intro ts h
    cases ts with
    | nil => simp [firstPts] at h
    | cons s tl => simp
  have hg' : ∀ f ∈ segs, segGood f = true ∧
      trackSamples f.tracks TrackKind.video ≠ [] ∧
      trackSamples f.tracks TrackKind.audio ≠ [] := by
    intro f hf
    obtain ⟨h1, h2, h3⟩ := hg f hf
    exact ⟨h1, hne _ h2, hne _ h3⟩
  rw [muxVideoChunks_from_init segs hg', muxAudioChunks_from_init segs hg']
  refine ⟨⟨shiftChunks_pairwise _ _, shiftChunks_chain_gap _ _ ?_⟩,
    shiftChunks_pairwise _ _, shiftChunks_chain_gap _ _ ?_⟩
  · intro ts hts
    rcases List.mem_map.mp hts with ⟨f, hf, rfl⟩
    exact (hg f hf).2.1
  · intro ts hts
    rcases List.mem_map.mp hts with ⟨f, hf, rfl⟩
    exact (hg f hf).2.2

/-- Witness for the amended C2 at a concrete input: two valid segments,
each with one video sample at timestamp 0 and one audio sample at
timestamp 0. -/
theorem c2_boundary_monotone_amended_witness :
    ((muxVideoChunks initMuxState
        [⟨true, [1], [⟨TrackKind.video, [⟨0, 4, 1⟩]⟩, ⟨TrackKind.audio, [⟨0, 2, 0⟩]⟩]⟩,
         ⟨true, [2], [⟨TrackKind.video, [⟨0, 4, 1⟩]⟩, ⟨TrackKind.audio, [⟨0, 2, 0⟩]⟩]⟩]).Pairwise
        (fun c1 c2 => ∀ a ∈ c1, ∀ b ∈ c2, a.pts < b.pts) ∧
      (muxVideoChunks initMuxState
        [⟨true, [1], [⟨TrackKind.video, [⟨0, 4, 1⟩]⟩, ⟨TrackKind.audio, [⟨0, 2, 0⟩]⟩]⟩,
         ⟨true, [2], [⟨TrackKind.video, [⟨0, 4, 1⟩]⟩, ⟨TrackKind.audio, [⟨0, 2, 0⟩]⟩]⟩]).Chain'
        (fun c1 c2 => minPtsOf c2 ≤ maxPtsOf c1 + 33333)) ∧
    ((muxAudioChunks initMuxState
        [⟨true, [1], [⟨TrackKind.video, [⟨0, 4, 1⟩]⟩, ⟨TrackKind.audio, [⟨0, 2, 0⟩]⟩]⟩,
         ⟨true, [2], [⟨TrackKind.video, [⟨0, 4, 1⟩]⟩, ⟨TrackKind.audio, [⟨0, 2, 0⟩]⟩]⟩]).Pairwise
        (fun c1 c2 => ∀ a ∈ c1, ∀ b ∈ c2, a.pts < b.pts) ∧
      (muxAudioChunks initMuxState
        [⟨true, [1], [⟨TrackKind.video, [⟨0, 4, 1⟩]⟩, ⟨TrackKind.audio, [⟨0, 2, 0⟩]⟩]⟩,
         ⟨true, [2], [⟨TrackKind.video, [⟨0, 4, 1⟩]⟩, ⟨TrackKind.audio, [⟨0, 2, 0⟩]⟩]⟩]).Chain'
        (fun c1 c2 => minPtsOf c2 ≤ maxPtsOf c1 + 33333)) :=
  c2_boundary_monotone_amended _ (by decide)

/-- Counterexample to C2 as stated: two existing, non-empty segments whose
video samples are legal but whose second segment starts at timestamp
50000 µs.  The muxer writes the second segment's sample at 83333 µs while
the first segment's maximum is 0 µs — a boundary discontinuity of 83333 µs,
exceeding one nominal frame duration (33333 µs). -/
theorem c2_one_frame_gap_counterexample :
    ¬ (muxVideoChunks initMuxState
        [⟨true, [1], [⟨TrackKind.video, [⟨0, 4, 1⟩]⟩, ⟨TrackKind.audio, [⟨0, 2, 0⟩]⟩]⟩,
         ⟨true, [2], [⟨TrackKind.video, [⟨50000, 4, 1⟩]⟩, ⟨TrackKind.audio, [⟨0, 2, 0⟩]⟩]⟩]).Chain'
      (fun c1 c2 => minPtsOf c2 ≤ maxPtsOf c1 + 33333) := by
  intro h
  have heval : muxVideoChunks initMuxState
      [⟨true, [1], [⟨TrackKind.video, [⟨0, 4, 1⟩]⟩, ⟨TrackKind.audio, [⟨0, 2, 0⟩]⟩]⟩,
       ⟨true, [2], [⟨TrackKind.video, [⟨50000, 4, 1⟩]⟩, ⟨TrackKind.audio, [⟨0, 2, 0⟩]⟩]⟩] =
      [[⟨0, 4, 1⟩], [⟨83333, 4, 1⟩]] := by decide
  rw [heval] at h
  rcases List.chain'_cons.mp h with ⟨hrel, -⟩
  simp [minPtsOf, maxPtsOf] at hrel

end VideoCapture
